import Mathlib

/-!
Verification of the snapshot-lifecycle / diff-report subsystem of
clean-and-green-philly (`BackupArchiveDatabase` and `DiffReport`).

The repository ships only the test scaffolding
(`src/data/src/new_etl/data_utils/diff_backup.py`); the classes it
exercises (`classes.backup_archive_database`, `classes.diff_report`)
are not part of the shown sources, so every operation below is
modelled from the specification's description of those classes and of
their naming conventions, state machine, diffing and delivery
behaviour.
-/

namespace DiffBackup

/-- Modelled from the spec: a structured timestamp as recorded in
`createdAt` and encoded into archive schema names via
`date_time_format` (`YYYYMMDD_HHMMSS`). -/
structure Timestamp where
  year : Nat
  month : Nat
  day : Nat
  hour : Nat
  minute : Nat
  second : Nat
deriving DecidableEq

/-- Calendar validity of a timestamp (the domain of real `datetime`
values: Python datetimes have `1 <= year <= 9999`). -/
def Timestamp.Valid (t : Timestamp) : Prop :=
  t.year < 10000 ∧ 1 ≤ t.month ∧ t.month ≤ 12 ∧ 1 ≤ t.day ∧ t.day ≤ 31 ∧
    t.hour < 24 ∧ t.minute < 60 ∧ t.second < 60

instance (t : Timestamp) : Decidable t.Valid := by
  unfold Timestamp.Valid; infer_instance

/-- Encoding of a single decimal digit as a character. -/
def digitToChar (d : Nat) : Char := Char.ofNat (48 + d)

/-- Decoding of a single decimal digit character. -/
def charToDigit (c : Char) : Nat := c.toNat - 48

/-- Whether a character is one of the decimal digits `0`..`9`. -/
def isDigitChar (c : Char) : Bool := 48 ≤ c.toNat && c.toNat ≤ 57

/-- Zero-padded two-digit rendering of a number below 100. -/
def pad2 (n : Nat) : List Char := [digitToChar (n / 10), digitToChar (n % 10)]

/-- Zero-padded four-digit rendering of a number below 10000. -/
def pad4 (n : Nat) : List Char :=
  [digitToChar (n / 1000), digitToChar (n / 100 % 10), digitToChar (n / 10 % 10),
    digitToChar (n % 10)]

/-- Decode two digit characters into a number. -/
def parse2 (c1 c2 : Char) : Nat := 10 * charToDigit c1 + charToDigit c2

/-- Decode four digit characters into a number. -/
def parse4 (c1 c2 c3 c4 : Char) : Nat :=
  1000 * charToDigit c1 + 100 * charToDigit c2 + 10 * charToDigit c3 + charToDigit c4

/-- Modelled from the spec: the `date_time_format` rendering of a
timestamp, `YYYYMMDD_HHMMSS`, used as the archive schema name
component. -/
def formatTimestamp (t : Timestamp) : List Char :=
  pad4 t.year ++ pad2 t.month ++ pad2 t.day ++
    '_' :: (pad2 t.hour ++ pad2 t.minute ++ pad2 t.second)

/-- Modelled from the spec: parsing a `YYYYMMDD_HHMMSS` name component
back into a structured timestamp; fails on any malformed string. -/
def parseTimestamp : List Char → Option Timestamp
  | [y1, y2, y3, y4, mo1, mo2, d1, d2, u, h1, h2, mi1, mi2, s1, s2] =>
    if u = '_' && isDigitChar y1 && isDigitChar y2 && isDigitChar y3 && isDigitChar y4 &&
        isDigitChar mo1 && isDigitChar mo2 && isDigitChar d1 && isDigitChar d2 &&
        isDigitChar h1 && isDigitChar h2 && isDigitChar mi1 && isDigitChar mi2 &&
        isDigitChar s1 && isDigitChar s2 then
      some ⟨parse4 y1 y2 y3 y4, parse2 mo1 mo2, parse2 d1 d2,
        parse2 h1 h2, parse2 mi1 mi2, parse2 s1 s2⟩
    else none
  | _ => none

theorem charToDigit_digitToChar {d : Nat} (h : d < 10) :
    charToDigit (digitToChar d) = d := by
  have : ∀ e < 10, charToDigit (digitToChar e) = e := by decide
  exact this d h

theorem isDigitChar_digitToChar {d : Nat} (h : d < 10) :
    isDigitChar (digitToChar d) = true := by
  have : ∀ e < 10, isDigitChar (digitToChar e) = true := by decide
  exact this d h

theorem digitToChar_charToDigit {c : Char} (h : isDigitChar c = true) :
    digitToChar (charToDigit c) = c := by
  have hb : 48 ≤ c.toNat ∧ c.toNat ≤ 57 := by
    simp only [isDigitChar, Bool.and_eq_true, decide_eq_true_eq] at h
    exact h
  have : 48 + (c.toNat - 48) = c.toNat := by omega
  simp [digitToChar, charToDigit, this]

theorem charToDigit_lt_ten {c : Char} (h : isDigitChar c = true) :
    charToDigit c < 10 := by
  have hb : 48 ≤ c.toNat ∧ c.toNat ≤ 57 := by
    simpa [isDigitChar, Bool.and_eq_true, decide_eq_true_eq] using h
  simp only [charToDigit]; omega

theorem parse2_pad2 {n : Nat} (h : n < 100) :
    parse2 (digitToChar (n / 10)) (digitToChar (n % 10)) = n := by
  have h1 : n / 10 < 10 := by omega
  have h2 : n % 10 < 10 := by omega
  simp only [parse2, charToDigit_digitToChar h1, charToDigit_digitToChar h2]
  omega

theorem parse4_pad4 {n : Nat} (h : n < 10000) :
    parse4 (digitToChar (n / 1000)) (digitToChar (n / 100 % 10))
      (digitToChar (n / 10 % 10)) (digitToChar (n % 10)) = n := by
  have h1 : n / 1000 < 10 := by omega
  have h2 : n / 100 % 10 < 10 := by omega
  have h3 : n / 10 % 10 < 10 := by omega
  have h4 : n % 10 < 10 := by omega
  simp only [parse4, charToDigit_digitToChar h1, charToDigit_digitToChar h2,
    charToDigit_digitToChar h3, charToDigit_digitToChar h4]
  omega

theorem pad2_parse2 {c1 c2 : Char} (h1 : isDigitChar c1 = true)
    (h2 : isDigitChar c2 = true) : pad2 (parse2 c1 c2) = [c1, c2] := by
  have b1 := charToDigit_lt_ten h1
  have b2 := charToDigit_lt_ten h2
  have e1 : parse2 c1 c2 / 10 = charToDigit c1 := by simp only [parse2]; omega
  have e2 : parse2 c1 c2 % 10 = charToDigit c2 := by simp only [parse2]; omega
  simp only [pad2, e1, e2, digitToChar_charToDigit h1, digitToChar_charToDigit h2]

theorem pad4_parse4 {c1 c2 c3 c4 : Char} (h1 : isDigitChar c1 = true)
    (h2 : isDigitChar c2 = true) (h3 : isDigitChar c3 = true)
    (h4 : isDigitChar c4 = true) : pad4 (parse4 c1 c2 c3 c4) = [c1, c2, c3, c4] := by
  have b1 := charToDigit_lt_ten h1
  have b2 := charToDigit_lt_ten h2
  have b3 := charToDigit_lt_ten h3
  have b4 := charToDigit_lt_ten h4
  have e1 : parse4 c1 c2 c3 c4 / 1000 = charToDigit c1 := by simp only [parse4]; omega
  have e2 : parse4 c1 c2 c3 c4 / 100 % 10 = charToDigit c2 := by simp only [parse4]; omega
  have e3 : parse4 c1 c2 c3 c4 / 10 % 10 = charToDigit c3 := by simp only [parse4]; omega
  have e4 : parse4 c1 c2 c3 c4 % 10 = charToDigit c4 := by simp only [parse4]; omega
  simp only [pad4, e1, e2, e3, e4, digitToChar_charToDigit h1, digitToChar_charToDigit h2,
    digitToChar_charToDigit h3, digitToChar_charToDigit h4]

theorem parseTimestamp_formatTimestamp {t : Timestamp} (h : t.Valid) :
    parseTimestamp (formatTimestamp t) = some t := by
  obtain ⟨hy, hm1, hm2, hd1, hd2, hh, hmin, hs⟩ := h
  have hy' : t.year < 10000 := hy
  have hm' : t.month < 100 := by omega
  have hd' : t.day < 100 := by omega
  have hh' : t.hour < 100 := by omega
  have hmi' : t.minute < 100 := by omega
  have hs' : t.second < 100 := by omega
  simp only [formatTimestamp, pad4, pad2, List.cons_append, List.nil_append,
    parseTimestamp]
  rw [if_pos]
  · simp only [Option.some.injEq]
    congr 1
    · exact parse4_pad4 hy'
    · exact parse2_pad2 hm'
    · exact parse2_pad2 hd'
    · exact parse2_pad2 hh'
    · exact parse2_pad2 hmi'
    · exact parse2_pad2 hs'
  · simp only [Bool.and_eq_true, decide_eq_true_eq]
    refine ⟨⟨⟨⟨⟨⟨⟨⟨⟨⟨⟨⟨⟨⟨trivial, ?_⟩, ?_⟩, ?_⟩, ?_⟩, ?_⟩, ?_⟩, ?_⟩, ?_⟩, ?_⟩, ?_⟩, ?_⟩, ?_⟩,
      ?_⟩, ?_⟩ <;>
      apply isDigitChar_digitToChar <;> omega

theorem formatTimestamp_parseTimestamp {s : List Char} {t : Timestamp}
    (h : parseTimestamp s = some t) : formatTimestamp t = s := by
  rcases s with _ | ⟨y1, s⟩; · exact absurd h (by simp [parseTimestamp])
  rcases s with _ | ⟨y2, s⟩; · exact absurd h (by simp [parseTimestamp])
  rcases s with _ | ⟨y3, s⟩; · exact absurd h (by simp [parseTimestamp])
  rcases s with _ | ⟨y4, s⟩; · exact absurd h (by simp [parseTimestamp])
  rcases s with _ | ⟨mo1, s⟩; · exact absurd h (by simp [parseTimestamp])
  rcases s with _ | ⟨mo2, s⟩; · exact absurd h (by simp [parseTimestamp])
  rcases s with _ | ⟨d1, s⟩; · exact absurd h (by simp [parseTimestamp])
  rcases s with _ | ⟨d2, s⟩; · exact absurd h (by simp [parseTimestamp])
  rcases s with _ | ⟨u, s⟩; · exact absurd h (by simp [parseTimestamp])
  rcases s with _ | ⟨h1, s⟩; · exact absurd h (by simp [parseTimestamp])
  rcases s with _ | ⟨h2, s⟩; · exact absurd h (by simp [parseTimestamp])
  rcases s with _ | ⟨mi1, s⟩; · exact absurd h (by simp [parseTimestamp])
  rcases s with _ | ⟨mi2, s⟩; · exact absurd h (by simp [parseTimestamp])
  rcases s with _ | ⟨s1, s⟩; · exact absurd h (by simp [parseTimestamp])
  rcases s with _ | ⟨s2, s⟩; · exact absurd h (by simp [parseTimestamp])
  rcases s with _ | ⟨c, s⟩
  · simp only [parseTimestamp] at h
    split at h
    · rename_i hc
      simp only [Bool.and_eq_true, decide_eq_true_eq] at hc
      obtain ⟨⟨⟨⟨⟨⟨⟨⟨⟨⟨⟨⟨⟨⟨hu, hdy1⟩, hdy2⟩, hdy3⟩, hdy4⟩, hdmo1⟩, hdmo2⟩, hdd1⟩,
        hdd2⟩, hdh1⟩, hdh2⟩, hdmi1⟩, hdmi2⟩, hds1⟩, hds2⟩ := hc
      cases h
      simp only [formatTimestamp]
      rw [pad4_parse4 hdy1 hdy2 hdy3 hdy4, pad2_parse2 hdmo1 hdmo2,
        pad2_parse2 hdd1 hdd2, pad2_parse2 hdh1 hdh2, pad2_parse2 hdmi1 hdmi2,
        pad2_parse2 hds1 hds2, hu]
      rfl
    · exact absurd h (by simp)
  · exact absurd h (by simp [parseTimestamp])

/-- C3: the timestamp naming scheme round-trips: formatting then parsing
returns the original (valid) timestamp, and parsing a well-formed string
then formatting returns the original string, so an archive name component
is parseable back into the exact `createdAt` it encodes. -/
theorem timestamp_roundtrip :
    (∀ t : Timestamp, t.Valid → parseTimestamp (formatTimestamp t) = some t) ∧
      (∀ (s : List Char) (t : Timestamp), parseTimestamp s = some t →
        formatTimestamp t = s) :=
  ⟨fun _ h => parseTimestamp_formatTimestamp h,
   fun _ _ h => formatTimestamp_parseTimestamp h⟩

theorem timestamp_roundtrip_witness :
    parseTimestamp (formatTimestamp ⟨2024, 5, 17, 9, 30, 0⟩) =
        some ⟨2024, 5, 17, 9, 30, 0⟩ ∧
      formatTimestamp ⟨2024, 5, 17, 9, 30, 0⟩ = "20240517_093000".toList :=
  ⟨timestamp_roundtrip.1 ⟨2024, 5, 17, 9, 30, 0⟩ (by decide),
   timestamp_roundtrip.2 "20240517_093000".toList ⟨2024, 5, 17, 9, 30, 0⟩ (by decide)⟩

/-- Modelled from the spec: the fixed name of the singleton backup
schema (`backup_schema_name` exported by
`classes.backup_archive_database`): fixed prefix plus the base schema
name. -/
def backup_schema_name : List Char := "backup_public".toList

/-- Modelled from the spec: the fixed leading part of an archive
schema name; the remainder is the formatted timestamp. -/
def archive_name_head : List Char := "backup_".toList

/-- Modelled from the spec: archive schema name = fixed leading part
plus the formatted `createdAt` timestamp. -/
def archiveName (t : Timestamp) : List Char := archive_name_head ++ formatTimestamp t

/-- Modelled from the spec: recover the timestamp encoded in an
archive schema name; `none` when the name does not match the archive
naming convention. -/
def parseArchiveName (n : List Char) : Option Timestamp :=
  if n.take archive_name_head.length = archive_name_head then
    parseTimestamp (n.drop archive_name_head.length)
  else none

/-- Modelled from the spec: the lifecycle-structural error taxonomy of
the snapshot manager. -/
inductive SnapshotError
  | SnapshotConflict
  | NoBackupPresent
deriving DecidableEq

/-- Modelled from the spec: the durable state seen by
`BackupArchiveDatabase`: the catalog's schema names, plus the
`createdAt` the manager recorded when the current backup was created
(the `timestamp_string` attribute, meaningful while a backup exists). -/
structure SnapState where
  schemas : List (List Char)
  createdAt : Timestamp
deriving DecidableEq

/-- Modelled from the spec: `is_backup_schema_exists`, a pure read via
the catalog inspector: whether the backup schema name is present. -/
def is_backup_schema_exists (st : SnapState) : Bool :=
  st.schemas.contains backup_schema_name

/-- Modelled from the spec: `backup_schema` — fails with
`SnapshotConflict` when a backup already exists; otherwise, in one
all-or-nothing transaction, creates the backup schema and records
`createdAt = now`. -/
def backup_schema (now : Timestamp) (st : SnapState) : Except SnapshotError SnapState :=
  if is_backup_schema_exists st then .error .SnapshotConflict
  else .ok ⟨backup_schema_name :: st.schemas, now⟩

/-- Modelled from the spec: `archive_backup_schema` — fails with
`NoBackupPresent` when no backup exists; otherwise atomically renames
the backup schema to the archive name encoding the recorded
`createdAt` (the clock at archive time, `_now`, plays no part in the
name). -/
def archive_backup_schema (_now : Timestamp) (st : SnapState) :
    Except SnapshotError SnapState :=
  if is_backup_schema_exists st then
    .ok ⟨archiveName st.createdAt ::
      st.schemas.filter (fun n => decide (n ≠ backup_schema_name)), st.createdAt⟩
  else .error .NoBackupPresent

theorem backup_schema_name_not_archive : parseArchiveName backup_schema_name = none := by
  decide

theorem parseArchiveName_archiveName {t : Timestamp} (h : t.Valid) :
    parseArchiveName (archiveName t) = some t := by
  simp only [parseArchiveName, archiveName, List.take_left, List.drop_left, if_pos]
  exact parseTimestamp_formatTimestamp h

theorem archiveName_ne_backup (t : Timestamp) : archiveName t ≠ backup_schema_name := by
  intro h
  have : (archiveName t).length = backup_schema_name.length := by rw [h]
  simp [archiveName, archive_name_head, backup_schema_name, formatTimestamp,
    pad4, pad2] at this

/-- C1: with no backup present, `backup_schema` succeeds and afterwards
`is_backup_schema_exists` is true; a second `backup_schema` before the
backup is archived fails with `SnapshotConflict`, and since the failing
call returns only the error, the state holding the existing backup is
left unchanged. -/
theorem backup_schema_then_conflict (now now' : Timestamp) (st : SnapState)
    (h : is_backup_schema_exists st = false) :
    ∃ st', backup_schema now st = .ok st' ∧
      is_backup_schema_exists st' = true ∧
      backup_schema now' st' = .error .SnapshotConflict := by
  refine ⟨⟨backup_schema_name :: st.schemas, now⟩, ?_, ?_, ?_⟩
  · simp [backup_schema, h]
  · simp [is_backup_schema_exists]
  · simp [backup_schema, is_backup_schema_exists]

theorem backup_schema_then_conflict_witness :
    ∃ st', backup_schema ⟨2024, 5, 17, 9, 30, 0⟩ ⟨[], ⟨2024, 1, 1, 0, 0, 0⟩⟩ = .ok st' ∧
      is_backup_schema_exists st' = true ∧
      backup_schema ⟨2024, 5, 17, 9, 31, 0⟩ st' = .error .SnapshotConflict :=
  backup_schema_then_conflict ⟨2024, 5, 17, 9, 30, 0⟩ ⟨2024, 5, 17, 9, 31, 0⟩
    ⟨[], ⟨2024, 1, 1, 0, 0, 0⟩⟩ (by decide)

/-- C2: `archive_backup_schema` with no backup fails with
`NoBackupPresent`; with a backup present (and no archive of that name
already in the catalog) it succeeds, afterwards
`is_backup_schema_exists` is false and exactly one archive schema with
the recorded `createdAt`'s name exists, whose parsed timestamp is that
`createdAt` — independent of the clock `nowArch` at archive time. -/
theorem archive_backup_schema_spec (nowArch : Timestamp) (st : SnapState) :
    (is_backup_schema_exists st = false →
      archive_backup_schema nowArch st = .error .NoBackupPresent) ∧
    (is_backup_schema_exists st = true → st.createdAt.Valid →
      archiveName st.createdAt ∉ st.schemas →
      ∃ st', archive_backup_schema nowArch st = .ok st' ∧
        is_backup_schema_exists st' = false ∧
        st'.schemas.count (archiveName st.createdAt) = 1 ∧
        parseArchiveName (archiveName st.createdAt) = some st.createdAt) := by
  constructor
  · intro h
    simp [archive_backup_schema, h]
  · intro h hv hnot
    refine ⟨⟨archiveName st.createdAt ::
      st.schemas.filter (fun n => decide (n ≠ backup_schema_name)),
      st.createdAt⟩, ?_, ?_, ?_, ?_⟩
    · simp [archive_backup_schema, h]
    · have hnb : backup_schema_name ∉ archiveName st.createdAt ::
          st.schemas.filter (fun n => decide (n ≠ backup_schema_name)) := by
        intro hc
        rcases List.mem_cons.mp hc with hc | hc
        · exact archiveName_ne_backup st.createdAt hc.symm
        · simpa using (List.mem_filter.mp hc).2
      simpa [is_backup_schema_exists] using hnb
    · simp only [List.count_cons_self, List.count_cons, if_pos rfl]
      have hz : (st.schemas.filter (fun n => decide (n ≠ backup_schema_name))).count
          (archiveName st.createdAt) = 0 := by
        apply List.count_eq_zero_of_not_mem
        intro hmem
        exact hnot (List.mem_of_mem_filter hmem)
      omega
    · exact parseArchiveName_archiveName hv

theorem archive_backup_schema_spec_witness :
    archive_backup_schema ⟨2024, 6, 1, 0, 0, 0⟩ ⟨[], ⟨2024, 1, 1, 0, 0, 0⟩⟩ =
        .error .NoBackupPresent ∧
      ∃ st', archive_backup_schema ⟨2024, 6, 1, 0, 0, 0⟩
          ⟨[backup_schema_name], ⟨2024, 5, 17, 9, 30, 0⟩⟩ = .ok st' ∧
        is_backup_schema_exists st' = false ∧
        st'.schemas.count (archiveName ⟨2024, 5, 17, 9, 30, 0⟩) = 1 ∧
        parseArchiveName (archiveName ⟨2024, 5, 17, 9, 30, 0⟩) =
          some ⟨2024, 5, 17, 9, 30, 0⟩ :=
  ⟨(archive_backup_schema_spec ⟨2024, 6, 1, 0, 0, 0⟩ ⟨[], ⟨2024, 1, 1, 0, 0, 0⟩⟩).1
      (by decide),
   (archive_backup_schema_spec ⟨2024, 6, 1, 0, 0, 0⟩
      ⟨[backup_schema_name], ⟨2024, 5, 17, 9, 30, 0⟩⟩).2 (by decide) (by decide)
      (by decide)⟩

/-- Modelled from the spec: the retention configuration consumed by
pruning; `maxAge` is a duration in seconds. -/
structure RetentionPolicy where
  maxAge : Nat
deriving DecidableEq

/-- Linearisation of a timestamp onto a second count, strictly
monotone in the lexicographic field order; used to compare ages. -/
def timeIndex (t : Timestamp) : Nat :=
  ((((t.year * 12 + t.month) * 31 + t.day) * 24 + t.hour) * 60 + t.minute) * 60 + t.second

/-- Age, in seconds, of a creation time as seen from `now`. -/
def ageOf (now created : Timestamp) : Nat := timeIndex now - timeIndex created

/-- Modelled from the spec: the deletion test applied to one schema
name at deletion time — the name must match the archive naming
convention and its encoded timestamp must be at least `maxAge` old
(the boundary case is deleted). -/
def shouldPrune (now : Timestamp) (policy : RetentionPolicy) (n : List Char) : Bool :=
  match parseArchiveName n with
  | some t => policy.maxAge ≤ ageOf now t
  | none => false

/-- Modelled from the spec: `prune_old_archives` — `listing` is the
set of schema names taken when the scan began; each candidate is
re-checked for existence (membership in the current catalog) and age
at deletion time, and only listed, archive-named, old-enough schemas
are dropped. -/
def prune_old_archives (now : Timestamp) (policy : RetentionPolicy)
    (listing : List (List Char)) (st : SnapState) : SnapState :=
  ⟨st.schemas.filter (fun n => !(listing.contains n && shouldPrune now policy n)),
    st.createdAt⟩

/-- C4: pruning never deletes a schema that does not match the archive
naming convention (in particular never the backup schema), never
deletes an archive strictly younger than `policy.maxAge`, deletes a
scanned archive whose age is exactly `policy.maxAge`, and never
deletes a schema that was not in the listing taken when the scan began
(so archives created after the scan survive that run). -/
theorem prune_old_archives_safe (now : Timestamp) (policy : RetentionPolicy)
    (listing : List (List Char)) (st : SnapState) (n : List Char)
    (hmem : n ∈ st.schemas) :
    (parseArchiveName n = none →
      n ∈ (prune_old_archives now policy listing st).schemas) ∧
    (∀ t, parseArchiveName n = some t → ageOf now t < policy.maxAge →
      n ∈ (prune_old_archives now policy listing st).schemas) ∧
    (∀ t, parseArchiveName n = some t → ageOf now t = policy.maxAge →
      n ∈ listing → n ∉ (prune_old_archives now policy listing st).schemas) ∧
    (n ∉ listing → n ∈ (prune_old_archives now policy listing st).schemas) ∧
    (n = backup_schema_name →
      n ∈ (prune_old_archives now policy listing st).schemas) := by
  refine ⟨?_, ?_, ?_, ?_, ?_⟩
  · intro hp
    apply List.mem_filter.mpr
    refine ⟨hmem, ?_⟩
    simp [shouldPrune, hp]
  · intro t hp hage
    apply List.mem_filter.mpr
    refine ⟨hmem, ?_⟩
    simp [shouldPrune, hp, Nat.not_le.mpr hage]
  · intro t hp hage hin hres
    have := (List.mem_filter.mp hres).2
    simp only [shouldPrune, hp, hage, Bool.not_eq_true', Bool.and_eq_false_iff] at this
    rcases this with hc | hc
    · simp only [List.contains_eq_any_beq] at hc
      have : listing.contains n = true := by simpa using hin
      simp only [List.contains_eq_any_beq] at this
      exact absurd this (by simp [hc])
    · simp at hc
  · intro hnl
    apply List.mem_filter.mpr
    refine ⟨hmem, ?_⟩
    have hc : listing.contains n = false := by simpa using hnl
    simp only [Bool.not_eq_true', Bool.and_eq_false_iff, hc]
    left
    trivial
  · intro hb
    apply List.mem_filter.mpr
    refine ⟨hmem, ?_⟩
    subst hb
    simp [shouldPrune, backup_schema_name_not_archive]

def pruneNow : Timestamp := ⟨2024, 6, 1, 0, 0, 50⟩

def archYoung : List Char := archiveName ⟨2024, 6, 1, 0, 0, 45⟩

def archBoundary : List Char := archiveName ⟨2024, 6, 1, 0, 0, 40⟩

def archUnlisted : List Char := archiveName ⟨2024, 5, 1, 0, 0, 0⟩

def pruneState : SnapState :=
  ⟨[backup_schema_name, archYoung, archBoundary, archUnlisted], ⟨2024, 1, 1, 0, 0, 0⟩⟩

def pruneListing : List (List Char) := [backup_schema_name, archYoung, archBoundary]

theorem prune_old_archives_safe_witness :
    backup_schema_name ∈
        (prune_old_archives pruneNow ⟨10⟩ pruneListing pruneState).schemas ∧
      archYoung ∈ (prune_old_archives pruneNow ⟨10⟩ pruneListing pruneState).schemas ∧
      archBoundary ∉ (prune_old_archives pruneNow ⟨10⟩ pruneListing pruneState).schemas ∧
      archUnlisted ∈ (prune_old_archives pruneNow ⟨10⟩ pruneListing pruneState).schemas :=
  ⟨(prune_old_archives_safe pruneNow ⟨10⟩ pruneListing pruneState backup_schema_name
      (by decide)).2.2.2.2 rfl,
   (prune_old_archives_safe pruneNow ⟨10⟩ pruneListing pruneState archYoung
      (by decide)).2.1 ⟨2024, 6, 1, 0, 0, 45⟩ (by decide) (by decide),
   (prune_old_archives_safe pruneNow ⟨10⟩ pruneListing pruneState archBoundary
      (by decide)).2.2.1 ⟨2024, 6, 1, 0, 0, 40⟩ (by decide) (by decide) (by decide),
   (prune_old_archives_safe pruneNow ⟨10⟩ pruneListing pruneState archUnlisted
      (by decide)).2.2.2.1 (by decide)⟩

/-- Column names of a table, as in the per-table schema descriptor. -/
abbrev ColName := List Char

/-- Modelled from the spec: a cell value; the store's two null
representations are distinct constructors so that normalization is
observable. -/
inductive Value
  | nullValue : Value
  | nanValue : Value
  | text : String → Value
deriving DecidableEq

/-- Modelled from the spec: normalization of the null representation
before exact-equality comparison; both null forms collapse to `none`. -/
def normalizeValue : Value → Option String
  | .nullValue => none
  | .nanValue => none
  | .text s => some s

/-- Modelled from the spec: one side of a per-table comparison — the
declared non-key column names and the rows, keyed by the table's
primary/business key. -/
structure Table where
  cols : List ColName
  rows : List (Nat × List Value)
deriving DecidableEq

/-- Row keys present on one side. -/
def tableKeys (t : Table) : List Nat := t.rows.map Prod.fst

/-- The non-key column values stored under a key, if present. -/
def lookupRow (t : Table) (k : Nat) : Option (List Value) :=
  (t.rows.find? (fun r => r.1 == k)).map Prod.snd

/-- Modelled from the spec: the non-key columns on which two rows with
equal key differ, under exact equality after null normalization. -/
def rowChanged (cols : List ColName) (ro rn : List Value) : List ColName :=
  ((cols.zip (ro.zip rn)).filter
    (fun p => decide (normalizeValue p.2.1 ≠ normalizeValue p.2.2))).map Prod.fst

/-- Modelled from the spec: a per-table diff — keys only on the newer
side, keys only on the older side, and for keys on both sides with
some differing column, the set of differing column names. -/
structure TableDiff where
  added : List Nat
  removed : List Nat
  changed : List (Nat × List ColName)
deriving DecidableEq

/-- Modelled from the spec: `diff` classification for one table:
each key is classified into added / removed / changed. -/
def diffTable (old new : Table) : TableDiff :=
  { added := (tableKeys new).filter (fun k => !(tableKeys old).contains k)
    removed := (tableKeys old).filter (fun k => !(tableKeys new).contains k)
    changed := ((tableKeys old).filter (fun k => (tableKeys new).contains k)).filterMap
      (fun k =>
        match lookupRow old k, lookupRow new k with
        | some ro, some rn =>
          if rowChanged old.cols ro rn = [] then none
          else some (k, rowChanged old.cols ro rn)
        | _, _ => none) }

/-- A schema snapshot for diffing: named tables. -/
abbrev SchemaTables := List ((List Char) × Table)

/-- The first table stored under a name, if present. -/
def lookupTable (s : SchemaTables) (n : List Char) : Option Table :=
  (s.find? (fun e => e.1 == n)).map Prod.snd

/-- Modelled from the spec: `DiffReport.run`'s table iteration — for
each table of the older side also present on the newer side, the
per-table diff. -/
def diffSchema (old new : SchemaTables) : List ((List Char) × TableDiff) :=
  old.filterMap (fun e =>
    match lookupTable new e.1 with
    | some tn => some (e.1, diffTable e.2 tn)
    | none => none)

theorem mem_tableKeys_of_lookupRow {t : Table} {k : Nat} {v : List Value}
    (h : lookupRow t k = some v) : k ∈ tableKeys t := by
  simp only [lookupRow, Option.map_eq_some'] at h
  obtain ⟨r, hr, hv⟩ := h
  have hk : r.1 = k := by simpa using List.find?_some hr
  have hm : r ∈ t.rows := List.mem_of_find?_eq_some hr
  exact hk ▸ List.mem_map_of_mem Prod.fst hm

theorem lookupRow_isSome_of_mem {t : Table} {k : Nat} (h : k ∈ tableKeys t) :
    ∃ v, lookupRow t k = some v := by
  simp only [tableKeys, List.mem_map] at h
  obtain ⟨r, hr, hk⟩ := h
  have : (t.rows.find? (fun r => r.1 == k)).isSome := by
    apply List.find?_isSome.mpr
    exact ⟨r, hr, by simp [hk]⟩
  obtain ⟨r', hr'⟩ := Option.isSome_iff_exists.mp this
  exact ⟨r'.2, by simp [lookupRow, hr']⟩

theorem changed_key_mem {o n : Table} {k : Nat} {cs : List ColName}
    (h : (k, cs) ∈ (diffTable o n).changed) :
    k ∈ tableKeys o ∧ (tableKeys n).contains k = true := by
  simp only [diffTable, List.mem_filterMap] at h
  obtain ⟨k', hk', hf⟩ := h
  have hmem := List.mem_filter.mp hk'
  have hkk : k' = k := by
    rcases ho : lookupRow o k' with _ | ro <;> rcases hn : lookupRow n k' with _ | rn <;>
      simp [ho, hn] at hf
    rcases hf with ⟨-, hf⟩
    exact hf.1
  exact hkk ▸ ⟨hmem.1, hmem.2⟩

/-- C5: for every pair of compared tables, the produced `TableDiff`
has pairwise disjoint key sets: no key appears in more than one of
`added`, `removed` and the domain of `changed`. -/
theorem diffTable_disjoint (o n : Table) :
    (diffTable o n).added.Disjoint (diffTable o n).removed ∧
      (diffTable o n).added.Disjoint ((diffTable o n).changed.map Prod.fst) ∧
      (diffTable o n).removed.Disjoint ((diffTable o n).changed.map Prod.fst) := by
  refine ⟨?_, ?_, ?_⟩
  · intro k hka hkr
    have ha := List.mem_filter.mp hka
    have hr := List.mem_filter.mp hkr
    simp only [diffTable] at ha hr
    have h1 : k ∉ tableKeys o := by simpa using ha.2
    exact h1 hr.1
  · intro k hka hkc
    simp only [List.mem_map] at hkc
    obtain ⟨⟨k', cs⟩, hmem, rfl⟩ := hkc
    have h2 := (changed_key_mem hmem).1
    have ha := List.mem_filter.mp hka
    simp only [diffTable] at ha
    have h1 : (k', cs).1 ∉ tableKeys o := by simpa using ha.2
    exact h1 h2
  · intro k hkr hkc
    simp only [List.mem_map] at hkc
    obtain ⟨⟨k', cs⟩, hmem, rfl⟩ := hkc
    have h2 := (changed_key_mem hmem).2
    have hr := List.mem_filter.mp hkr
    simp only [diffTable] at hr
    have h1 : (k', cs).1 ∉ tableKeys n := by simpa using hr.2
    have h2' : k' ∈ tableKeys n := by simpa using h2
    exact h1 h2'

theorem diffTable_disjoint_witness :
    (diffTable ⟨[], [(1, [])]⟩ ⟨[], [(2, [])]⟩).added.Disjoint
      (diffTable ⟨[], [(1, [])]⟩ ⟨[], [(2, [])]⟩).removed :=
  (diffTable_disjoint ⟨[], [(1, [])]⟩ ⟨[], [(2, [])]⟩).1

def colA : ColName := "owner".toList

def colB : ColName := "zip".toList

def oldSide : Table :=
  ⟨[colA, colB],
   [(1, [.text "alice", .text "19107"]),
    (2, [.text "bob", .nullValue]),
    (3, [.text "carol", .text "19104"])]⟩

def newSide : Table :=
  ⟨[colA, colB],
   [(2, [.text "bob", .nanValue]),
    (3, [.text "carol", .text "19146"]),
    (4, [.text "dave", .text "19130"])]⟩

/-- C6: on old-side keys `{1,2,3}` and new-side keys `{2,3,4}` with row
2 identical up to null representation and row 3 differing in exactly
the one column `colB`, `diffTable` yields added `{4}`, removed `{1}`,
changed `{3 ↦ {colB}}`; and in general a key present on both sides is
classified changed iff some non-key column differs under exact
equality after null normalization. -/
theorem diffTable_classification :
    diffTable oldSide newSide = ⟨[4], [1], [(3, [colB])]⟩ ∧
      (∀ (o n : Table) (k : Nat) (ro rn : List Value),
        lookupRow o k = some ro → lookupRow n k = some rn →
        ((∃ cs, (k, cs) ∈ (diffTable o n).changed) ↔ rowChanged o.cols ro rn ≠ [])) := by
  constructor
  · decide
  · intro o n k ro rn ho hn
    constructor
    · rintro ⟨cs, hmem⟩
      simp only [diffTable, List.mem_filterMap] at hmem
      obtain ⟨k', hk', hf⟩ := hmem
      rcases ho' : lookupRow o k' with _ | ro' <;>
        rcases hn' : lookupRow n k' with _ | rn' <;> simp [ho', hn'] at hf
      obtain ⟨hce, hk, -⟩ := hf
      subst hk
      rw [ho'] at ho
      rw [hn'] at hn
      cases Option.some.inj ho
      cases Option.some.inj hn
      exact hce
    · intro hne
      refine ⟨rowChanged o.cols ro rn, ?_⟩
      simp only [diffTable, List.mem_filterMap]
      refine ⟨k, ?_, ?_⟩
      · apply List.mem_filter.mpr
        refine ⟨mem_tableKeys_of_lookupRow ho, ?_⟩
        simpa using mem_tableKeys_of_lookupRow hn
      · simp [ho, hn, hne]

theorem diffTable_classification_witness :
    diffTable oldSide newSide = ⟨[4], [1], [(3, [colB])]⟩ ∧
      (∃ cs, (3, cs) ∈ (diffTable oldSide newSide).changed) :=
  ⟨diffTable_classification.1,
   (diffTable_classification.2 oldSide newSide 3
      [Value.text "carol", Value.text "19104"] [Value.text "carol", Value.text "19146"]
      (by decide) (by decide)).mpr (by decide)⟩

theorem zip_self (l : List Value) : l.zip l = l.map (fun a => (a, a)) := by
  induction l with
  | nil => rfl
  | cons a l ih => simp [List.zip_cons_cons, ih]

theorem rowChanged_self (cols : List ColName) (v : List Value) :
    rowChanged cols v v = [] := by
  unfold rowChanged
  rw [zip_self]
  rw [List.map_eq_nil_iff]
  apply List.filter_eq_nil_iff.mpr
  intro p hp
  obtain ⟨c, pr⟩ := p
  have h2 : pr ∈ v.map (fun a => (a, a)) := (List.of_mem_zip hp).2
  simp only [List.mem_map] at h2
  obtain ⟨a, -, rfl⟩ := h2
  simp

theorem diffTable_self (t : Table) : diffTable t t = ⟨[], [], []⟩ := by
  simp only [diffTable]
  congr 1
  · apply List.filter_eq_nil_iff.mpr
    intro k hk
    simp only [Bool.not_eq_true']
    simpa using hk
  · apply List.filter_eq_nil_iff.mpr
    intro k hk
    simp only [Bool.not_eq_true']
    simpa using hk
  · apply List.filterMap_eq_nil_iff.mpr
    intro k hk
    have hkm : k ∈ tableKeys t := (List.mem_filter.mp hk).1
    obtain ⟨v, hv⟩ := lookupRow_isSome_of_mem hkm
    simp [hv, rowChanged_self]

theorem lookupTable_nodup {s : SchemaTables} (hnd : (s.map Prod.fst).Nodup)
    {e : (List Char) × Table} (he : e ∈ s) : lookupTable s e.1 = some e.2 := by
  induction s with
  | nil => cases he
  | cons x s ih =>
    rcases List.mem_cons.mp he with rfl | he'
    · simp [lookupTable, List.find?]
    · have hnd' : (s.map Prod.fst).Nodup := (List.nodup_cons.mp hnd).2
      have hx : x.1 ∉ s.map Prod.fst := (List.nodup_cons.mp hnd).1
      have hne : (x.1 == e.1) = false := by
        simp only [beq_eq_false_iff_ne, ne_eq]
        intro hq
        exact hx (hq ▸ List.mem_map_of_mem Prod.fst he')
      have := ih hnd' he'
      simp only [lookupTable, List.find?, hne] at this ⊢
      exact this

/-- C7: diffing a snapshot against itself is the identity case: for a
snapshot whose table names are distinct, every per-table diff produced
by `diffSchema` of the snapshot with itself has empty `added`,
`removed` and `changed`. -/
theorem diffSchema_self_empty (s : SchemaTables) (hnd : (s.map Prod.fst).Nodup) :
    ∀ e ∈ diffSchema s s, e.2.added = [] ∧ e.2.removed = [] ∧ e.2.changed = [] := by
  intro e he
  simp only [diffSchema, List.mem_filterMap] at he
  obtain ⟨a, ha, hf⟩ := he
  rw [lookupTable_nodup hnd ha] at hf
  simp only [Option.some.injEq] at hf
  subst hf
  simp [diffTable_self]

def demoSchema : SchemaTables := [("vacant_properties".toList, oldSide)]

theorem diffSchema_self_empty_witness :
    (diffTable oldSide oldSide).added = [] ∧ (diffTable oldSide oldSide).removed = [] ∧
      (diffTable oldSide oldSide).changed = [] :=
  diffSchema_self_empty demoSchema (by decide)
    ("vacant_properties".toList, diffTable oldSide oldSide) (by decide)

/-- Modelled from the spec: the fixed maximum number of changed rows
listed in one table's detail report. -/
def max_changed_rows_shown : Nat := 50

/-- One line of the rendered per-table detail: the table header, one
changed row with its differing columns, or the excess summary
(rendered as the count followed by "more not shown"). -/
inductive ReportLine
  | header : List Char → ReportLine
  | row : Nat → List ColName → ReportLine
  | more : Nat → ReportLine
deriving DecidableEq

/-- Whether a report line lists one changed row. -/
def isRowLine : ReportLine → Bool
  | .row _ _ => true
  | _ => false

/-- Modelled from the spec: `generate_table_detail_report` — the
changed rows of one table's diff, capped at
`max_changed_rows_shown`, with the excess summarised in a single
trailing "N more not shown" line. -/
def generate_table_detail_report (tableName : List Char) (d : TableDiff) :
    List ReportLine :=
  ReportLine.header tableName ::
    ((d.changed.take max_changed_rows_shown).map (fun p => ReportLine.row p.1 p.2) ++
      (if max_changed_rows_shown < d.changed.length then
        [ReportLine.more (d.changed.length - max_changed_rows_shown)]
      else []))

/-- HTML text of one report line. -/
def renderLine : ReportLine → List Char
  | .header nm => "<h2>".toList ++ nm ++ "</h2>".toList
  | .row k cs =>
    "<tr><td>".toList ++ Nat.toDigits 10 k ++ "</td><td>".toList ++
      (List.intercalate ", ".toList cs) ++ "</td></tr>".toList
  | .more n => "<p>".toList ++ Nat.toDigits 10 n ++ " more not shown</p>".toList

/-- Full HTML text of a table detail report. -/
def renderHtml (lines : List ReportLine) : String :=
  String.mk (lines.map renderLine).flatten

/-- C9: the rendered per-table detail lists at most
`max_changed_rows_shown` changed rows (exactly the cap when the diff
holds more), the excess is summarised in a "N more not shown" line
with N the number of withheld rows, and the total number of lines is
bounded regardless of the diff's size. -/
theorem generate_table_detail_report_bounded (tableName : List Char) (d : TableDiff) :
    (generate_table_detail_report tableName d).countP isRowLine =
        min max_changed_rows_shown d.changed.length ∧
      (max_changed_rows_shown < d.changed.length →
        ReportLine.more (d.changed.length - max_changed_rows_shown) ∈
          generate_table_detail_report tableName d) ∧
      (generate_table_detail_report tableName d).length ≤ max_changed_rows_shown + 2 := by
  refine ⟨?_, ?_, ?_⟩
  · simp only [generate_table_detail_report, List.countP_cons, List.countP_append]
    have hrow : ((d.changed.take max_changed_rows_shown).map
        (fun p => ReportLine.row p.1 p.2)).countP isRowLine =
        ((d.changed.take max_changed_rows_shown).map
          (fun p => ReportLine.row p.1 p.2)).length := by
      rw [List.countP_eq_length]
      intro a ha
      simp only [List.mem_map] at ha
      obtain ⟨p, -, rfl⟩ := ha
      rfl
    rw [hrow, List.length_map, List.length_take]
    split <;> simp [isRowLine]
  · intro hlt
    simp only [generate_table_detail_report, if_pos hlt]
    simp
  · simp only [generate_table_detail_report, List.length_cons, List.length_append,
      List.length_map, List.length_take]
    split <;> simp

def bigDiff : TableDiff :=
  ⟨[], [], (List.range 51).map (fun i => (i, [colA]))⟩

theorem generate_table_detail_report_bounded_witness :
    (generate_table_detail_report "vacant_properties".toList bigDiff).countP isRowLine =
        min max_changed_rows_shown bigDiff.changed.length ∧
      ReportLine.more 1 ∈
        generate_table_detail_report "vacant_properties".toList bigDiff :=
  ⟨(generate_table_detail_report_bounded "vacant_properties".toList bigDiff).1,
   (generate_table_detail_report_bounded "vacant_properties".toList bigDiff).2.1
     (by decide)⟩

/-- Modelled from the spec: the independent delivery channels. -/
inductive Channel
  | storage
  | chat
  | email
deriving DecidableEq

/-- Modelled from the spec: a per-channel delivery outcome, collected
rather than thrown. -/
structure DeliveryResult where
  channel : Channel
  succeeded : Bool
deriving DecidableEq

/-- Modelled from the spec: the `DiffReport` object — an optional
timestamp selecting the archive compared against, and the mutable
`report` text attribute read by the delivery operations. -/
structure DiffReport where
  timestamp_string : Option Timestamp
  report : String
deriving DecidableEq

/-- A freshly constructed `DiffReport()` — no timestamp, empty report,
`run` never executed. -/
def DiffReport.new : DiffReport := ⟨none, ""⟩

/-- Text summary of one table's diff counts. -/
def summaryLine (e : (List Char) × TableDiff) : List Char :=
  e.1 ++ ": ".toList ++ Nat.toDigits 10 e.2.added.length ++ " added, ".toList ++
    Nat.toDigits 10 e.2.removed.length ++ " removed, ".toList ++
    Nat.toDigits 10 e.2.changed.length ++ " changed\n".toList

/-- Modelled from the spec: `buildSummary` — deterministic text with
per-table added/removed/changed counts. -/
def buildSummary (diffs : List ((List Char) × TableDiff)) : String :=
  String.mk (diffs.map summaryLine).flatten

/-- Modelled from the spec: `DiffReport.run` — computes the per-table
diffs of the compared snapshots and stores their summary in the
`report` attribute. -/
def DiffReport.run (old new : SchemaTables) (d : DiffReport) : DiffReport :=
  { d with report := buildSummary (diffSchema old new) }

/-- Modelled from the spec: `send_report_to_slack` — posts exactly the
`report` attribute through the chat transport and returns the posted
text with the per-channel outcome; never throws. -/
def send_report_to_slack (transportOk : String → Bool) (d : DiffReport) :
    String × DeliveryResult :=
  (d.report, ⟨Channel.chat, transportOk d.report⟩)

/-- Modelled from the spec: `email_report` — sends exactly the
`report` attribute through the email transport and returns the sent
text with the per-channel outcome; never throws. -/
def email_report (transportOk : String → Bool) (d : DiffReport) :
    String × DeliveryResult :=
  (d.report, ⟨Channel.email, transportOk d.report⟩)

/-- Modelled from the spec: `detail_report` — renders a table's
detail, uploads it to object storage and returns the per-channel
outcome; never throws. -/
def detail_report (uploadOk : String → Bool) (tableName : List Char) (d : TableDiff) :
    DeliveryResult :=
  ⟨Channel.storage, uploadOk (renderHtml (generate_table_detail_report tableName d))⟩

/-- Modelled from the spec: the notification dispatcher — the three
channels are delivered independently and their results collected into
one list. -/
def deliver_all (uploadOk slackOk emailOk : String → Bool) (d : DiffReport)
    (tableName : List Char) (diff : TableDiff) : List DeliveryResult :=
  [detail_report uploadOk tableName diff, (send_report_to_slack slackOk d).2,
    (email_report emailOk d).2]

/-- C8: delivery channels fail independently: with the chat transport
forced to fail, the dispatcher still returns a successful email result
(whenever the email transport accepts the report) and a storage result
from the non-throwing `detail_report`; one result per channel is
collected, none is thrown. -/
theorem delivery_isolation (d : DiffReport) (emailOk uploadOk : String → Bool)
    (tableName : List Char) (diff : TableDiff) (hemail : emailOk d.report = true) :
    DeliveryResult.mk Channel.email true ∈
        deliver_all uploadOk (fun _ => false) emailOk d tableName diff ∧
      DeliveryResult.mk Channel.chat false ∈
        deliver_all uploadOk (fun _ => false) emailOk d tableName diff ∧
      (deliver_all uploadOk (fun _ => false) emailOk d tableName diff).map
          DeliveryResult.channel = [Channel.storage, Channel.chat, Channel.email] := by
  refine ⟨?_, ?_, ?_⟩
  · simp [deliver_all, email_report, hemail]
  · simp [deliver_all, send_report_to_slack]
  · simp [deliver_all, send_report_to_slack, email_report, detail_report]

theorem delivery_isolation_witness :
    DeliveryResult.mk Channel.email true ∈
        deliver_all (fun _ => true) (fun _ => false) (fun _ => true)
          ⟨none, "This is the report"⟩ "vacant_properties".toList bigDiff ∧
      DeliveryResult.mk Channel.chat false ∈
        deliver_all (fun _ => true) (fun _ => false) (fun _ => true)
          ⟨none, "This is the report"⟩ "vacant_properties".toList bigDiff ∧
      (deliver_all (fun _ => true) (fun _ => false) (fun _ => true)
          ⟨none, "This is the report"⟩ "vacant_properties".toList bigDiff).map
        DeliveryResult.channel = [Channel.storage, Channel.chat, Channel.email] :=
  delivery_isolation ⟨none, "This is the report"⟩ (fun _ => true) (fun _ => true)
    "vacant_properties".toList bigDiff rfl

/-- C10: the delivery operations send exactly the text held in the
`report` attribute at call time: on a freshly constructed `DiffReport`
(no timestamp, `run` never executed) with `report` assigned directly,
both `send_report_to_slack` and `email_report` post exactly that text,
for any transports. -/
theorem delivery_uses_report_attribute (s : String) (slackOk emailOk : String → Bool) :
    (send_report_to_slack slackOk { DiffReport.new with report := s }).1 = s ∧
      (email_report emailOk { DiffReport.new with report := s }).1 = s ∧
      ({ DiffReport.new with report := s } : DiffReport).timestamp_string = none :=
  ⟨rfl, rfl, rfl⟩

end DiffBackup
